import Mathlib

/-!
Verification development for the ietf-at conversion service.

This file gives a shallow embedding of the two source modules of the
repository, `at/utils/logs.py` (the log classifier) and `at/api.py`
(the conversion pipeline), and proves properties of that embedding.

Modelling conventions:
* strings are `List Char`; the IGNORECASE regexes and `str.lower`
  calls of the source are modelled by ASCII case folding on character
  codes (the Unicode special cases of Python `str.lower` are out of
  scope);
* the external collaborators (kramdown-rfc2629, id2xml, and the
  xml2rfc engine: parser, v2v3 converter, prep tool, writers) are
  opaque; they are supplied as an `Env` record of outcomes, and each
  pipeline function additionally returns the list of external effects
  it performs, in order, so that claims about which stages run are
  statable;
* fallible code returns `Except`.
-/

namespace IetfAt

/-! ### ASCII case folding

The regexes of `logs.py` are compiled with `re.IGNORECASE`, and
`api.py` compares `str.lower` of extensions with lowercase literals.
Both are modelled with `lcn`, lowercase on ASCII character codes.
-/

/-- Lowercase on ASCII character codes: maps 65..90 (A-Z) to 97..122 (a-z). -/
def lcn (n : Nat) : Nat := if 65 ≤ n ∧ n ≤ 90 then n + 32 else n

/-- Case-insensitive character comparison. -/
def ciEqC (a b : Char) : Bool := lcn a.toNat == lcn b.toNat

/-- Case-insensitive equality of character lists. -/
def ciEqL : List Char → List Char → Bool
  | [], [] => true
  | a :: xs, b :: ys => ciEqC a b && ciEqL xs ys
  | _, _ => false

/-- The pattern is a case-insensitive prefix of the text. -/
def ciStarts : List Char → List Char → Bool
  | [], _ => true
  | _, [] => false
  | p :: ps, c :: cs => ciEqC p c && ciStarts ps cs

/-- Remainder of the text after the first (leftmost) case-insensitive
occurrence of the pattern, if any.  This is the semantics of a Python
`re.search` of an IGNORECASE pattern `^.*?PAT(?P<rest>.*)$` on a
newline-free line: the lazy `.*?` selects the first occurrence of
`PAT`, and `rest` captures everything after it. -/
def searchCI (pat : List Char) : List Char → Option (List Char)
  | [] => if ciStarts pat [] then some [] else none
  | c :: rest =>
    if ciStarts pat (c :: rest) then some ((c :: rest).drop pat.length)
    else searchCI pat rest

/-! ### The log classifier (`at/utils/logs.py`)

```
XML2RFC_ERROR_REGEX = re_compile(r'^.*?Error: (?P<message>.*)$', IGNORECASE)
XML2RFC_WARN_REGEX = re_compile(r'^.*?Warning: (?P<message>.*)$', IGNORECASE)
XML2RFC_LINE_NUMBER_REGEX = re_compile(
                                r'^.*?\((?P<line>.*?)\): (Error|Warning): ',
                                IGNORECASE)
```
-/

/-- Literal part of `XML2RFC_ERROR_REGEX`; the captured `message` is
the remainder of the line after it. -/
def errorPat : List Char := "Error: ".data

/-- Literal part of `XML2RFC_WARN_REGEX`. -/
def warnPat : List Char := "Warning: ".data

/-- Helper for `XML2RFC_LINE_NUMBER_REGEX`: given the characters that
follow an opening parenthesis, lazily find the closing
`): (Error|Warning): ` marker and return the (shortest) captured
`line` group in front of it. -/
def findCloser : List Char → Option (List Char)
  | [] => none
  | c :: rest =>
    if ciStarts "): Error: ".data (c :: rest) ||
        ciStarts "): Warning: ".data (c :: rest) then
      some []
    else
      match findCloser rest with
      | some grp => some (c :: grp)
      | none => none

/-- Search semantics of `XML2RFC_LINE_NUMBER_REGEX` on one line: the
lazy prefix selects the earliest `(` that is followed (lazily) by a
`): Error: ` or `): Warning: ` marker; the `line` group is what stands
between. -/
def searchLineGroup : List Char → Option (List Char)
  | [] => none
  | c :: rest =>
    if c = '(' then
      match findCloser rest with
      | some grp => some grp
      | none => searchLineGroup rest
    else searchLineGroup rest

/-- Python `str.split` on a newline: `"".split` gives `[""]`,
separators delimit (possibly empty) fields. -/
def splitNl : List Char → List (List Char)
  | [] => [[]]
  | c :: rest =>
    if c = '\n' then [] :: splitNl rest
    else
      match splitNl rest with
      | h :: t => (c :: h) :: t
      | [] => [[c]]

/-- Result dictionary of `process_xml2rfc_log`. -/
structure LogDict where
  errors : List (List Char)
  warnings : List (List Char)
deriving DecidableEq

/-- The f-string `f'({line}) {message}'` when a non-empty line group
was captured, bare `message` otherwise. -/
def withLine (lineG : Option (List Char)) (msg : List Char) : List Char :=
  match lineG with
  | some l => if l.isEmpty then msg else '(' :: (l ++ ')' :: ' ' :: msg)
  | none => msg

/-- The `elif warning and (message := ...)` branch of the loop body. -/
def tryWarn (d : LogDict) (entry : List Char) (lineG : Option (List Char)) : LogDict :=
  match searchCI warnPat entry with
  | some msg =>
    if msg.isEmpty then d
    else { d with warnings := d.warnings ++ [withLine lineG msg] }
  | none => d

/-- Loop body of `process_xml2rfc_log` for one log line: an error
match with a non-empty message appends an error entry, otherwise a
warning match with a non-empty message appends a warning entry; the
captured line number, when present and non-empty, prefixes the
message. -/
def classifyLine (d : LogDict) (entry : List Char) : LogDict :=
  let lineG := searchLineGroup entry
  match searchCI errorPat entry with
  | some msg =>
    if msg.isEmpty then tryWarn d entry lineG
    else { d with errors := d.errors ++ [withLine lineG msg] }
  | none => tryWarn d entry lineG

/-- `process_xml2rfc_log`: empty stderr yields no log lines (the
`if output.stderr:` guard), otherwise the decoded stream is split on
newlines and each line is classified in order. -/
def process_xml2rfc_log (stderr : List Char) : LogDict :=
  let log := if stderr.isEmpty then [] else splitNl stderr
  log.foldl classifyLine { errors := [], warnings := [] }

/-! ### Path and filename helpers of `at/api.py` -/

/-- `os.path.join` of a directory and a relative leaf. -/
def pathJoin (d leaf : List Char) : List Char := d ++ '/' :: leaf

/-- Basename: the part of the path after the last `/` (the whole path
when there is no `/`).  This is also `get_file` of `api.py`
(`filename.split('/')[-1]`). -/
def afterLastSlash (s : List Char) : List Char :=
  (s.reverse.takeWhile (fun c => decide (c ≠ '/'))).reverse

/-- `get_file` from `api.py`: the filename part of a file path. -/
def get_file (filename : List Char) : List Char := afterLastSlash filename

/-- On a reversed basename: split at the first `.` (which is the last
`.` of the basename), returning the reversed extension (dot included)
and the reversed part before it; `none` when the basename has no dot. -/
def splitAtFirstDotRev : List Char → Option (List Char × List Char)
  | [] => none
  | c :: rest =>
    if c = '.' then some ([c], rest)
    else
      match splitAtFirstDotRev rest with
      | some (e, r) => some (c :: e, r)
      | none => none

/-- `os.path.splitext`: split at the last dot of the basename,
provided a non-dot character stands before the dot in the basename
(leading dots do not start an extension). -/
def splitext (p : List Char) : List Char × List Char :=
  let b := afterLastSlash p
  match splitAtFirstDotRev b.reverse with
  | some (erev, rrev) =>
    if rrev.any (fun c => decide (c ≠ '.')) then
      (p.take (p.length - erev.length), erev.reverse)
    else (p, [])
  | none => (p, [])

/-- `get_filename` from `api.py`: the filename with its extension
replaced (`'.'.join([root, ext])` with `root` from `splitext`). -/
def get_filename (filename ext : List Char) : List Char :=
  (splitext filename).1 ++ '.' :: ext

/-- Part after the last dot, `none` when there is no dot; this is
`filename.rsplit('.', 1)[1]` guarded by `'.' in filename`. -/
def afterLastDot : List Char → Option (List Char)
  | [] => none
  | c :: rest =>
    match afterLastDot rest with
    | some t => some t
    | none => if c = '.' then some rest else none

/-- `ALLOWED_EXTENSIONS = {'txt', 'xml', 'md', 'mkd'}`. -/
def ALLOWED_EXTENSIONS : List (List Char) :=
  ["txt".data, "xml".data, "md".data, "mkd".data]

/-- Case-insensitive membership.  Python lowercases the candidate and
compares with lowercase ASCII literals, which is the same test. -/
def ciMem (x : List Char) (l : List (List Char)) : Bool :=
  l.any (fun y => ciEqL x y)

/-- `allowed_file` from `api.py`: true when the filename has a dot and
the lowercased part after the last dot is an allowed extension. -/
def allowed_file (filename : List Char) : Bool :=
  match afterLastDot filename with
  | some ext => ciMem ext ALLOWED_EXTENSIONS
  | none => false

/-- Starting stage selected by `process_file` from the (lowercased)
`os.path.splitext` extension of the saved file. -/
inductive Route
  | markdown
  | textRfc
  | xmlDirect
deriving DecidableEq

/-- Extension dispatch of `process_file`:
`if file_ext.lower() in ['.md', '.mkd']` converts markdown,
`elif file_ext.lower() == '.txt'` converts text, anything else is
passed to the normalizer directly. -/
def routeOf (filename : List Char) : Route :=
  let ext := (splitext filename).2
  if ciMem ext [".md".data, ".mkd".data] then .markdown
  else if ciEqL ext ".txt".data then .textRfc
  else .xmlDirect

/-! ### Data model of the pipeline embedding -/

/-- The root of a parsed XML tree, reduced to the one attribute the
pipeline inspects: `root.get('version')`. -/
structure XmlRoot where
  versionAttr : Option (List Char)
deriving DecidableEq

/-- Opaque result tree of the prep tool. -/
structure PreppedTree where
  treeId : Nat
deriving DecidableEq

/-- External effects a pipeline function performs, in order.  Each
constructor corresponds to one side-effecting call in `api.py`. -/
inductive Effect
  | mkdirE (path : List Char) (mode : Nat)
  | saveE (path : List Char)
  | convertMd
  | convertTxt
  | writeF (path : List Char)
  | parseX
  | v2v3E
  | prepE
  | renderHtmlE
  | renderTextE
  | renderPdfE
  | classifyE
deriving DecidableEq

/-- Exceptions raised by the pipeline functions.  `kramdown`,
`textId2xml` and `xml2rfc`/`xml2rfcList` are `KramdownError`,
`TextError` and `XML2RFCError` of `api.py` (the latter is raised once
with a string payload and once with the prep error list).
`uncaughtSyntax` records that an `XMLSyntaxError` inside `prep_xml`
is not caught there (its `try` only catches `RfcWriterError`). -/
inductive ApiErr
  | kramdown (stderr : List Char)
  | textId2xml (stderr : List Char)
  | xml2rfc (msg : List Char)
  | xml2rfcList (msgs : List (List Char))
  | uncaughtSyntax (msg : List Char)
deriving DecidableEq

/-- Outcomes of the opaque external collaborators for one request:
the two converters, the xml2rfc parser, the v2v3 transform and the
prep tool (result tree option plus its accumulated `prep.errors`). -/
structure Env where
  kramdownRun : Except (List Char) (List Char)
  id2xmlRun : Except (List Char) Unit
  parseXml : Except (List Char) XmlRoot
  v2v3 : XmlRoot → XmlRoot
  prepResult : Except (List Char) (Option PreppedTree)
  prepErrors : List (List Char)

/-- `DIR_MODE = 0o770`. -/
def DIR_MODE : Nat := 0o770

/-- Uploaded file of a request. -/
structure UploadedFile where
  filename : List Char
deriving DecidableEq

/-- Incoming request: whether a `file` part is present, and the file. -/
structure Request where
  hasFile : Bool
  file : UploadedFile
deriving DecidableEq

/-- The per-request workspace directory `path.join(UPLOAD_DIR, str(uuid4()))`. -/
def workspacePath (uploadDir uuid : List Char) : List Char := pathJoin uploadDir uuid

/-! ### Pipeline functions of `at/api.py`

Each function returns its effect trace in the first component and its
result (`Except` for code that raises) in the second.
-/

/-- `md2xml`: run kramdown-rfc2629; non-zero exit raises
`KramdownError` with the decoded stderr, success writes stdout to the
sibling `.xml` file and returns that name. -/
def md2xml (env : Env) (filename : List Char) :
    List Effect × Except ApiErr (List Char) :=
  match env.kramdownRun with
  | .error stderr => ([.convertMd], .error (.kramdown stderr))
  | .ok _stdout =>
    let xml_file := get_filename filename "xml".data
    ([.convertMd, .writeF xml_file], .ok xml_file)

/-- `txt2xml`: run id2xml with the sibling `.xml` output path;
non-zero exit raises `TextError` with the decoded stderr, success
returns the output name. -/
def txt2xml (env : Env) (filename : List Char) :
    List Effect × Except ApiErr (List Char) :=
  let xml_file := get_filename filename "xml".data
  match env.id2xmlRun with
  | .error stderr => ([.convertTxt], .error (.textId2xml stderr))
  | .ok _ => ([.convertTxt], .ok xml_file)

/-- `process_file`: make the workspace directory with mode `DIR_MODE`,
save the upload, then convert by extension (`werkzeug.secure_filename`
is an external sanitizer, out of scope per the spec, modelled as the
identity). -/
def process_file (env : Env) (uploadDir uuid : List Char) (file : UploadedFile) :
    List Effect × Except ApiErr (List Char × List Char) :=
  let dir_path := workspacePath uploadDir uuid
  let filename := pathJoin dir_path file.filename
  let base : List Effect := [.mkdirE dir_path DIR_MODE, .saveE filename]
  match routeOf filename with
  | .markdown =>
    let r := md2xml env filename
    (base ++ r.1, r.2.map (fun xml => (dir_path, xml)))
  | .textRfc =>
    let r := txt2xml env filename
    (base ++ r.1, r.2.map (fun xml => (dir_path, xml)))
  | .xmlDirect => (base, .ok (dir_path, filename))

/-- `get_xml`: parse the file (an `XMLSyntaxError` is re-raised as
`XML2RFCError` with the parser message), read the root `version`
attribute defaulting to `"2"`, and when it is `"2"` run the v2v3
transform and overwrite the file in place.  The second component of
the successful result is the document state on disk after the stage
(the source returns only the filename; the document state is carried
here so that version properties are statable). -/
def get_xml (env : Env) (filename : List Char) :
    List Effect × Except ApiErr (List Char × XmlRoot) :=
  match env.parseXml with
  | .error msg => ([.parseX], .error (.xml2rfc msg))
  | .ok xmlroot =>
    let version := xmlroot.versionAttr.getD "2".data
    if version = "2".data then
      ([.parseX, .v2v3E, .writeF filename], .ok (filename, env.v2v3 xmlroot))
    else
      ([.parseX], .ok (filename, xmlroot))

/-- `prep_xml`: re-parse the file and run the prep tool in
liberal/accept-prepped mode.  A `RfcWriterError` raises `XML2RFCError`
with its message; a `None` result tree raises `XML2RFCError` carrying
`prep.errors` (even when that list is empty); a syntax error in the
re-parse would escape uncaught. -/
def prep_xml (env : Env) (_filename : List Char) :
    List Effect × Except ApiErr PreppedTree :=
  match env.parseXml with
  | .error msg => ([.parseX], .error (.uncaughtSyntax msg))
  | .ok _ =>
    match env.prepResult with
    | .error msg => ([.parseX, .prepE], .error (.xml2rfc msg))
    | .ok none => ([.parseX, .prepE], .error (.xml2rfcList env.prepErrors))
    | .ok (some tree) => ([.parseX, .prepE], .ok tree)

/-- `get_html`: prep, then run the HTML writer onto the sibling
`.html` file (the metadata-script option setting is a pure
configuration change with no further observable effect here). -/
def get_html (env : Env) (filename : List Char) :
    List Effect × Except ApiErr (List Char) :=
  let p := prep_xml env filename
  match p.2 with
  | .error e => (p.1, .error e)
  | .ok _ =>
    let html_file := get_filename filename "html".data
    (p.1 ++ [.renderHtmlE, .writeF html_file], .ok html_file)

/-- `get_text`: prep, then run the text writer onto the sibling `.txt` file. -/
def get_text (env : Env) (filename : List Char) :
    List Effect × Except ApiErr (List Char) :=
  let p := prep_xml env filename
  match p.2 with
  | .error e => (p.1, .error e)
  | .ok _ =>
    let text_file := get_filename filename "txt".data
    (p.1 ++ [.renderTextE, .writeF text_file], .ok text_file)

/-- `get_pdf`: prep, then run the PDF writer onto the sibling `.pdf` file. -/
def get_pdf (env : Env) (filename : List Char) :
    List Effect × Except ApiErr (List Char) :=
  let p := prep_xml env filename
  match p.2 with
  | .error e => (p.1, .error e)
  | .ok _ =>
    let pdf_file := get_filename filename "pdf".data
    (p.1 ++ [.renderPdfE, .writeF pdf_file], .ok pdf_file)

/-- JSON error responses of the `render` endpoint (each is returned
with status 400). -/
inductive ErrResponse
  | noFile
  | filenameMissing
  | kramdownError (msg : List Char)
  | id2xmlError (msg : List Char)
  | xml2rfcError (e : ApiErr)
  | formatNotSupported
  | inputFormatNotSupported
deriving DecidableEq

/-- Outcome of the `render` endpoint: a file sent from the workspace
directory, a 400 JSON error, or an exception that no handler catches. -/
inductive RenderResult
  | sendFile (dir leaf : List Char)
  | badRequest (err : ErrResponse)
  | unhandled (e : ApiErr)
deriving DecidableEq

/-- The `try ... except XML2RFCError` around the format dispatch:
`XML2RFCError` payloads become 400 responses, anything else escapes. -/
def afterRender (dir_path : List Char) : Except ApiErr (List Char) → RenderResult
  | .ok f => .sendFile dir_path (get_file f)
  | .error (.xml2rfc m) => .badRequest (.xml2rfcError (.xml2rfc m))
  | .error (.xml2rfcList ms) => .badRequest (.xml2rfcError (.xml2rfcList ms))
  | .error e => .unhandled e

/-- Format dispatch of `render`: `xml` sends the normalized file
itself, `html`/`text`/`pdf` prep and render, anything else is the
`render format not supported` 400 response. -/
def dispatchFormat (env : Env) (fmt dir_path xml_file : List Char)
    (pre : List Effect) : List Effect × RenderResult :=
  if fmt = "xml".data then
    (pre, .sendFile dir_path (get_file xml_file))
  else if fmt = "html".data then
    let g := get_html env xml_file
    (pre ++ g.1, afterRender dir_path g.2)
  else if fmt = "text".data then
    let g := get_text env xml_file
    (pre ++ g.1, afterRender dir_path g.2)
  else if fmt = "pdf".data then
    let g := get_pdf env xml_file
    (pre ++ g.1, afterRender dir_path g.2)
  else
    (pre, .badRequest .formatNotSupported)

/-- The `render` endpoint: validate the upload, process the file,
normalize, then dispatch on the requested format.  `KramdownError`,
`TextError` and `XML2RFCError` are caught and become 400 responses. -/
def render (env : Env) (uploadDir uuid fmt : List Char) (req : Request) :
    List Effect × RenderResult :=
  if req.hasFile = false then ([], .badRequest .noFile)
  else if req.file.filename = [] then ([], .badRequest .filenameMissing)
  else if allowed_file req.file.filename then
    let pf := process_file env uploadDir uuid req.file
    match pf.2 with
    | .error (.kramdown e) => (pf.1, .badRequest (.kramdownError e))
    | .error (.textId2xml e) => (pf.1, .badRequest (.id2xmlError e))
    | .error e => (pf.1, .unhandled e)
    | .ok (dir_path, filename) =>
      let gx := get_xml env filename
      match gx.2 with
      | .error e => (pf.1 ++ gx.1, .badRequest (.xml2rfcError e))
      | .ok (xml_file, _doc) =>
        dispatchFormat env fmt dir_path xml_file (pf.1 ++ gx.1)
  else ([], .badRequest .inputFormatNotSupported)

/-- Specification-side definition, following the words of the spec
claim `creating it with owner-only permissions`: a mode is owner-only
when all its group and world permission bits are clear. -/
def ownerOnlyMode (m : Nat) : Bool := m % 64 == 0

/-! ### Trace helpers -/

/-- Effects of the Prep Stage and of the three renderers. -/
def isPrepOrRender : Effect → Bool
  | .prepE => true
  | .renderHtmlE => true
  | .renderTextE => true
  | .renderPdfE => true
  | _ => false

/-- A trace that contains neither a prep nor a renderer invocation. -/
def noPrepRender (tr : List Effect) : Bool := tr.all (fun e => !(isPrepOrRender e))

/-- Case-insensitive equality on optional strings. -/
def ciEqO : Option (List Char) → Option (List Char) → Bool
  | none, none => true
  | some a, some b => ciEqL a b
  | _, _ => false

/-- Case-insensitive equality on the optional split results of
`splitAtFirstDotRev`. -/
def ciEqPO : Option (List Char × List Char) → Option (List Char × List Char) → Bool
  | none, none => true
  | some (a, c), some (b, d) => ciEqL a b && ciEqL c d
  | _, _ => false

/-! ### Concrete environments used by witnesses and counterexamples -/

/-- An environment in which every external collaborator succeeds and
the parsed document is already at version 3. -/
def envOk : Env where
  kramdownRun := .ok "converted".data
  id2xmlRun := .ok ()
  parseXml := .ok { versionAttr := some "3".data }
  v2v3 := fun _ => { versionAttr := some "3".data }
  prepResult := .ok (some { treeId := 0 })
  prepErrors := []

/-- Like `envOk` but the parsed root carries `version="1"`. -/
def envV1 : Env := { envOk with parseXml := .ok { versionAttr := some "1".data } }

/-- Like `envOk` but the prep tool returns a null tree with an empty
accumulated error list. -/
def envPrepNull : Env := { envOk with prepResult := .ok none }

/-- Like `envOk` but kramdown-rfc2629 exits non-zero. -/
def envKramFail : Env := { envOk with kramdownRun := .error "kram boom".data }

/-- Like `envOk` but id2xml exits non-zero. -/
def envId2xmlFail : Env := { envOk with id2xmlRun := .error "id2xml boom".data }

/-- Like `envOk` but the XML parser fails. -/
def envParseFail : Env := { envOk with parseXml := .error "tag mismatch".data }

/-- A request uploading `draft.xml`. -/
def reqXml : Request := { hasFile := true, file := { filename := "draft.xml".data } }

/-! ### Lemmas -/

theorem noPrepRender_append (a b : List Effect) :
    noPrepRender (a ++ b) = (noPrepRender a && noPrepRender b) := by
  simp [noPrepRender]

theorem md2xml_trace (env : Env) (f : List Char) :
    noPrepRender (md2xml env f).1 = true := by
  unfold md2xml
  cases env.kramdownRun <;> rfl

theorem txt2xml_trace (env : Env) (f : List Char) :
    noPrepRender (txt2xml env f).1 = true := by
  unfold txt2xml
  cases env.id2xmlRun <;> rfl

theorem process_file_trace (env : Env) (ud uuid : List Char) (f : UploadedFile) :
    noPrepRender (process_file env ud uuid f).1 = true := by
  simp only [process_file]
  rcases hr : routeOf (pathJoin (workspacePath ud uuid) f.filename) with _ | _ | _
  · simp only []
    rw [noPrepRender_append, md2xml_trace]
    rfl
  · simp only []
    rw [noPrepRender_append, txt2xml_trace]
    rfl
  · rfl

theorem process_file_trace_head (env : Env) (ud uuid : List Char) (f : UploadedFile) :
    Effect.mkdirE (workspacePath ud uuid) DIR_MODE ∈ (process_file env ud uuid f).1 := by
  simp only [process_file]
  rcases hr : routeOf (pathJoin (workspacePath ud uuid) f.filename) with _ | _ | _ <;> simp

theorem get_xml_trace (env : Env) (f : List Char) :
    noPrepRender (get_xml env f).1 = true := by
  unfold get_xml
  rcases env.parseXml with _ | root
  · rfl
  · dsimp only
    split <;> rfl

theorem get_xml_parse_ok (env : Env) (f : List Char) (root : XmlRoot)
    (h : env.parseXml = .ok root) :
    ∃ tr doc, get_xml env f = (tr, .ok (f, doc))
      ∧ noPrepRender tr = true ∧ Effect.parseX ∈ tr := by
  unfold get_xml
  rw [h]
  by_cases hv : root.versionAttr.getD "2".data = "2".data
  · refine ⟨[.parseX, .v2v3E, .writeF f], env.v2v3 root, ?_, rfl, by simp⟩
    simp [hv]
  · refine ⟨[.parseX], root, ?_, rfl, by simp⟩
    simp [hv]

/-! ### Claims -/

/-- C1: the log classifier on the line
`doc.xml(12): Error: missing title` yields exactly the error entry
`(12) missing title` and no warnings; on `Warning: deprecated element`
exactly the warning entry `deprecated element` and no errors; and a
blank line yields no entries at all. -/
theorem c1_log_classifier_cases :
    process_xml2rfc_log "doc.xml(12): Error: missing title".data =
      { errors := ["(12) missing title".data], warnings := [] }
    ∧ process_xml2rfc_log "Warning: deprecated element".data =
      { errors := [], warnings := ["deprecated element".data] }
    ∧ process_xml2rfc_log "\n".data = { errors := [], warnings := [] }
    ∧ classifyLine { errors := [], warnings := [] } [] =
      { errors := [], warnings := [] } := by decide

/-- C8: a log line matching both the error pattern and the warning
pattern, each with a non-empty captured message, is recorded as an
error and not as a warning. -/
theorem c8_error_precedence (d : LogDict) (entry m w : List Char)
    (he : searchCI errorPat entry = some m) (hm : m ≠ [])
    (_hw : searchCI warnPat entry = some w) (_hww : w ≠ []) :
    (classifyLine d entry).warnings = d.warnings
    ∧ (classifyLine d entry).errors =
        d.errors ++ [withLine (searchLineGroup entry) m] := by
  unfold classifyLine
  rw [he]
  cases m with
  | nil => exact absurd rfl hm
  | cons a l => exact ⟨rfl, rfl⟩

/-- Witness for C8 on the concrete line `Error: Warning: x`. -/
theorem c8_witness :
    (classifyLine { errors := [], warnings := [] } "Error: Warning: x".data).warnings = []
    ∧ (classifyLine { errors := [], warnings := [] } "Error: Warning: x".data).errors =
        [] ++ [withLine (searchLineGroup "Error: Warning: x".data) "Warning: x".data] :=
  c8_error_precedence { errors := [], warnings := [] } "Error: Warning: x".data
    "Warning: x".data "x".data (by decide) (by decide) (by decide) (by decide)

/-- C7: when the prep tool raises an explicit tool error or completes
with a null result tree, `prep_xml` fails with an error carrying the
accumulated diagnostics; a null result with an empty diagnostic list
is still a failure. -/
theorem c7_prep_failures (env : Env) (f : List Char) (root : XmlRoot)
    (hp : env.parseXml = .ok root) :
    (env.prepResult = .ok none →
      prep_xml env f = ([.parseX, .prepE], .error (.xml2rfcList env.prepErrors)))
    ∧ (∀ msg, env.prepResult = .error msg →
      prep_xml env f = ([.parseX, .prepE], .error (.xml2rfc msg)))
    ∧ (env.prepResult = .ok none → env.prepErrors = [] →
      (prep_xml env f).2 = .error (.xml2rfcList [])) := by
  refine ⟨fun h => ?_, fun msg h => ?_, fun h h2 => ?_⟩
  · unfold prep_xml; rw [hp, h]
  · unfold prep_xml; rw [hp, h]
  · unfold prep_xml; rw [hp, h, h2]

/-- Witness for C7: a null prep result with an empty diagnostic list
is reported as a failure carrying the empty list. -/
theorem c7_witness :
    prep_xml envPrepNull "draft.xml".data =
      ([.parseX, .prepE], .error (.xml2rfcList [])) :=
  (c7_prep_failures envPrepNull "draft.xml".data { versionAttr := some "3".data } rfl).1 rfl

/-- C2 counterexample: with a v2v3 transform that always produces
version 3, a well-formed input whose root carries `version="1"` is
returned by `get_xml` unconverted, still at version 1 — the normalizer
output is not at version 3 for every original version. -/
theorem c2_counterexample :
    (get_xml envV1 "draft.xml".data).2 =
      .ok ("draft.xml".data, { versionAttr := some "1".data })
    ∧ ({ versionAttr := some "1".data } : XmlRoot).versionAttr ≠ some "3".data := by
  constructor
  · rfl
  · decide

/-- C2 (amended): the version attribute defaults to `"2"` when
absent; whenever the (possibly defaulted) version is `"2"` the v2v3
transform is applied and the file is overwritten in place; and,
provided the transform yields version-3 documents, the document
returned by `get_xml` is at version 3 whenever the original version
was absent, `"2"`, or already `"3"` (any other version value passes
through unchanged). -/
theorem c2_normalizer_version (env : Env) (f : List Char) (root : XmlRoot)
    (hparse : env.parseXml = .ok root)
    (hconv : (env.v2v3 root).versionAttr = some "3".data) :
    (root.versionAttr.getD "2".data = "2".data →
      get_xml env f = ([.parseX, .v2v3E, .writeF f], .ok (f, env.v2v3 root)))
    ∧ ((root.versionAttr.getD "2".data = "2".data ∨ root.versionAttr = some "3".data) →
      ∃ doc : XmlRoot, (get_xml env f).2 = .ok (f, doc)
        ∧ doc.versionAttr = some "3".data) := by
  constructor
  · intro h
    unfold get_xml; rw [hparse]; simp [h]
  · rintro (h | h)
    · refine ⟨env.v2v3 root, ?_, hconv⟩
      unfold get_xml; rw [hparse]; simp [h]
    · have hne : root.versionAttr.getD "2".data ≠ "2".data := by
        rw [h]; decide
      refine ⟨root, ?_, h⟩
      unfold get_xml; rw [hparse]; simp [hne]

/-- Witness for C2 (amended): a root with no version attribute is
upgraded in place and comes out at version 3. -/
theorem c2_witness :
    (get_xml { envOk with parseXml := .ok { versionAttr := none } } "draft.xml".data =
      ([.parseX, .v2v3E, .writeF "draft.xml".data],
        .ok ("draft.xml".data, { versionAttr := some "3".data }))) :=
  (c2_normalizer_version { envOk with parseXml := .ok { versionAttr := none } }
    "draft.xml".data { versionAttr := none } rfl rfl).1 (by decide)

/-- C4 counterexample: on a non-zero kramdown-rfc2629 exit the adapter
raises `KramdownError` with the raw stderr text but performs no log
classification; likewise for id2xml — refuting the claim that the Log
Classifier is run over the captured stderr stream. -/
theorem c4_counterexample :
    ((md2xml envKramFail "d.md".data).2 = .error (.kramdown "kram boom".data)
      ∧ Effect.classifyE ∉ (md2xml envKramFail "d.md".data).1)
    ∧ ((txt2xml envId2xmlFail "d.txt".data).2 = .error (.textId2xml "id2xml boom".data)
      ∧ Effect.classifyE ∉ (txt2xml envId2xmlFail "d.txt".data).1) := by
  refine ⟨⟨rfl, ?_⟩, ⟨rfl, ?_⟩⟩ <;> decide

/-- C4 (amended): every converter invocation that exits with non-zero
status raises a kind-specific error (`KramdownError` for the markdown
kind, `TextError` for the text kind) carrying the raw stderr text; the
Log Classifier is not invoked by the adapter. -/
theorem c4_converter_errors (env : Env) (f : List Char) :
    (∀ s, env.kramdownRun = .error s →
      md2xml env f = ([.convertMd], .error (.kramdown s))
      ∧ Effect.classifyE ∉ (md2xml env f).1)
    ∧ (∀ s, env.id2xmlRun = .error s →
      txt2xml env f = ([.convertTxt], .error (.textId2xml s))
      ∧ Effect.classifyE ∉ (txt2xml env f).1) := by
  constructor
  · intro s h
    have he : md2xml env f = ([.convertMd], .error (.kramdown s)) := by
      unfold md2xml; rw [h]
    rw [he]
    exact ⟨rfl, by simp⟩
  · intro s h
    have he : txt2xml env f = ([.convertTxt], .error (.textId2xml s)) := by
      unfold txt2xml; rw [h]
    rw [he]
    exact ⟨rfl, by simp⟩

/-- Witness for C4 (amended) at a concrete failing kramdown run. -/
theorem c4_witness :
    md2xml envKramFail "other.md".data =
      ([.convertMd], .error (.kramdown "kram boom".data))
    ∧ Effect.classifyE ∉ (md2xml envKramFail "other.md".data).1 :=
  (c4_converter_errors envKramFail "other.md".data).1 "kram boom".data rfl

/-- C6 counterexample: `DIR_MODE` is `0o770`, which grants group
permissions — the workspace directory is not created with owner-only
permissions. -/
theorem c6_counterexample :
    ownerOnlyMode DIR_MODE = false ∧ DIR_MODE = 0o770 := by decide

/-- C6 (amended): distinct request identifiers give distinct
(collision-free) workspace directory paths, and the directory is
created with mode `DIR_MODE = 0o770` — owner and group permissions,
with no world access — rather than owner-only permissions. -/
theorem c6_workspace (env : Env) (ud u₁ u₂ : List Char) (f : UploadedFile)
    (h : u₁ ≠ u₂) :
    workspacePath ud u₁ ≠ workspacePath ud u₂
    ∧ Effect.mkdirE (workspacePath ud u₁) DIR_MODE ∈ (process_file env ud u₁ f).1
    ∧ DIR_MODE % 8 = 0 := by
  refine ⟨?_, process_file_trace_head env ud u₁ f, by decide⟩
  intro heq
  apply h
  unfold workspacePath pathJoin at heq
  have h2 : '/' :: u₁ = '/' :: u₂ := List.append_cancel_left heq
  exact (List.cons.injEq _ _ _ _).mp h2 |>.2

/-- Witness for C6 (amended) at concrete identifiers. -/
theorem c6_witness :
    workspacePath "/uploads".data "u1".data ≠ workspacePath "/uploads".data "u2".data
    ∧ Effect.mkdirE (workspacePath "/uploads".data "u1".data) DIR_MODE ∈
        (process_file envOk "/uploads".data "u1".data { filename := "draft.xml".data }).1
    ∧ DIR_MODE % 8 = 0 :=
  c6_workspace envOk "/uploads".data "u1".data "u2".data
    { filename := "draft.xml".data } (by decide)

/-- When the upload is valid and conversion and normalization succeed,
`render` reaches the format dispatch with the workspace directory, the
normalized filename, and a prep-free and render-free trace so far that
contains the normalization parse. -/
theorem render_reaches_dispatch (env : Env) (ud uuid fmt : List Char) (req : Request)
    (dp fn : List Char) (root : XmlRoot)
    (h1 : req.hasFile = true)
    (h2 : req.file.filename ≠ [])
    (h3 : allowed_file req.file.filename = true)
    (h4 : (process_file env ud uuid req.file).2 = .ok (dp, fn))
    (h5 : env.parseXml = .ok root) :
    ∃ tr₂ doc, get_xml env fn = (tr₂, .ok (fn, doc))
      ∧ noPrepRender tr₂ = true ∧ Effect.parseX ∈ tr₂
      ∧ render env ud uuid fmt req =
          dispatchFormat env fmt dp fn ((process_file env ud uuid req.file).1 ++ tr₂) := by
  obtain ⟨tr₂, doc, hgx, htr, hmem⟩ := get_xml_parse_ok env fn root h5
  refine ⟨tr₂, doc, hgx, htr, hmem, ?_⟩
  simp only [render, h1, h2, h3, h4, hgx, Bool.true_eq_false, if_false, ite_false, reduceIte]

/-- C3 counterexample: a request for the unsupported format `rtf` on a
valid `draft.xml` upload does fail with the unsupported-format error,
but the normalization stage has already been invoked for that request
— refuting that no pipeline stage is invoked. -/
theorem c3_counterexample :
    (render envOk "/uploads".data "u1".data "rtf".data reqXml).2 =
      .badRequest .formatNotSupported
    ∧ Effect.parseX ∈ (render envOk "/uploads".data "u1".data "rtf".data reqXml).1 := by
  constructor
  · rfl
  · decide

/-- C3 (amended): for every request whose upload validation,
conversion and normalization succeed and whose requested format is
outside the enumeration, the request fails with the
unsupported-format error and neither the Prep Stage nor any renderer
is invoked — but conversion and normalization do run before the
format check. -/
theorem c3_unsupported_format (env : Env) (ud uuid fmt : List Char) (req : Request)
    (dp fn : List Char) (root : XmlRoot)
    (h1 : req.hasFile = true)
    (h2 : req.file.filename ≠ [])
    (h3 : allowed_file req.file.filename = true)
    (h4 : (process_file env ud uuid req.file).2 = .ok (dp, fn))
    (h5 : env.parseXml = .ok root)
    (h6 : fmt ≠ "xml".data) (h7 : fmt ≠ "html".data)
    (h8 : fmt ≠ "text".data) (h9 : fmt ≠ "pdf".data) :
    (render env ud uuid fmt req).2 = .badRequest .formatNotSupported
    ∧ noPrepRender (render env ud uuid fmt req).1 = true
    ∧ Effect.parseX ∈ (render env ud uuid fmt req).1 := by
  obtain ⟨tr₂, _doc, _hgx, htr, hmem, hrender⟩ :=
    render_reaches_dispatch env ud uuid fmt req dp fn root h1 h2 h3 h4 h5
  rw [hrender]
  unfold dispatchFormat
  rw [if_neg h6, if_neg h7, if_neg h8, if_neg h9]
  refine ⟨rfl, ?_, ?_⟩
  · show noPrepRender ((process_file env ud uuid req.file).1 ++ tr₂) = true
    rw [noPrepRender_append, process_file_trace env ud uuid req.file, htr]
    rfl
  · show Effect.parseX ∈ (process_file env ud uuid req.file).1 ++ tr₂
    exact List.mem_append.mpr (Or.inr hmem)

/-- Witness for C3 (amended) at the concrete format `rtf`. -/
theorem c3_witness :
    (render envOk "/uploads".data "u1".data "rtf".data reqXml).2 =
      .badRequest .formatNotSupported
    ∧ noPrepRender (render envOk "/uploads".data "u1".data "rtf".data reqXml).1 = true
    ∧ Effect.parseX ∈ (render envOk "/uploads".data "u1".data "rtf".data reqXml).1 :=
  c3_unsupported_format envOk "/uploads".data "u1".data "rtf".data reqXml
    "/uploads/u1".data "/uploads/u1/draft.xml".data { versionAttr := some "3".data }
    rfl (by decide) (by decide) rfl rfl (by decide) (by decide) (by decide) (by decide)

/-- C5: when the input file is not well-formed XML, `get_xml` raises
the syntax error carrying the parser message, `render` returns that
error, and neither the Prep Stage nor any renderer is invoked. -/
theorem c5_syntax_error_aborts (env : Env) (ud uuid fmt : List Char) (req : Request)
    (dp fn msg : List Char)
    (h1 : req.hasFile = true)
    (h2 : req.file.filename ≠ [])
    (h3 : allowed_file req.file.filename = true)
    (h4 : (process_file env ud uuid req.file).2 = .ok (dp, fn))
    (h5 : env.parseXml = .error msg) :
    (render env ud uuid fmt req).2 = .badRequest (.xml2rfcError (.xml2rfc msg))
    ∧ noPrepRender (render env ud uuid fmt req).1 = true := by
  have hgx : get_xml env fn = ([.parseX], .error (.xml2rfc msg)) := by
    unfold get_xml; rw [h5]
  have hrender : render env ud uuid fmt req =
      ((process_file env ud uuid req.file).1 ++ [.parseX],
        .badRequest (.xml2rfcError (.xml2rfc msg))) := by
    simp only [render, h1, h2, h3, h4, hgx, Bool.true_eq_false, if_false, ite_false, reduceIte]
  rw [hrender]
  refine ⟨rfl, ?_⟩
  show noPrepRender ((process_file env ud uuid req.file).1 ++ [.parseX]) = true
  rw [noPrepRender_append, process_file_trace env ud uuid req.file]
  rfl

/-- Witness for C5 at a concrete malformed-XML environment. -/
theorem c5_witness :
    (render envParseFail "/uploads".data "u1".data "html".data reqXml).2 =
      .badRequest (.xml2rfcError (.xml2rfc "tag mismatch".data))
    ∧ noPrepRender (render envParseFail "/uploads".data "u1".data "html".data reqXml).1 = true :=
  c5_syntax_error_aborts envParseFail "/uploads".data "u1".data "html".data reqXml
    "/uploads/u1".data "/uploads/u1/draft.xml".data "tag mismatch".data
    rfl (by decide) (by decide) rfl rfl

/-- C9: a request for the `xml` format never invokes the Prep Stage
(nor any renderer): after normalization the already-normalized XML
file itself is sent back from the workspace directory. -/
theorem c9_xml_passthrough (env : Env) (ud uuid : List Char) (req : Request)
    (dp fn : List Char) (root : XmlRoot)
    (h1 : req.hasFile = true)
    (h2 : req.file.filename ≠ [])
    (h3 : allowed_file req.file.filename = true)
    (h4 : (process_file env ud uuid req.file).2 = .ok (dp, fn))
    (h5 : env.parseXml = .ok root) :
    (render env ud uuid "xml".data req).2 = .sendFile dp (get_file fn)
    ∧ noPrepRender (render env ud uuid "xml".data req).1 = true := by
  obtain ⟨tr₂, _doc, _hgx, htr, _hmem, hrender⟩ :=
    render_reaches_dispatch env ud uuid "xml".data req dp fn root h1 h2 h3 h4 h5
  rw [hrender]
  unfold dispatchFormat
  rw [if_pos rfl]
  refine ⟨rfl, ?_⟩
  show noPrepRender ((process_file env ud uuid req.file).1 ++ tr₂) = true
  rw [noPrepRender_append, process_file_trace env ud uuid req.file, htr]
  rfl

/-- Witness for C9 at a concrete successful request. -/
theorem c9_witness :
    (render envOk "/uploads".data "u1".data "xml".data reqXml).2 =
      .sendFile "/uploads/u1".data (get_file "/uploads/u1/draft.xml".data)
    ∧ noPrepRender (render envOk "/uploads".data "u1".data "xml".data reqXml).1 = true :=
  c9_xml_passthrough envOk "/uploads".data "u1".data reqXml
    "/uploads/u1".data "/uploads/u1/draft.xml".data { versionAttr := some "3".data }
    rfl (by decide) (by decide) rfl rfl

/-! ### Case-insensitivity of extension handling (C10)

Congruence of the filename functions under case-insensitive equality
of the input. -/

theorem char_toNat_inj {a b : Char} (h : a.toNat = b.toNat) : a = b :=
  Char.eq_of_val_eq (UInt32.eq_of_val_eq (Fin.eq_of_val_eq h))

theorem ciEqC_eq_of_low {a b : Char} (h : ciEqC a b = true) (hb : b.toNat < 65) :
    a = b := by
  have hn : lcn a.toNat = lcn b.toNat := by simpa [ciEqC] using h
  apply char_toNat_inj
  unfold lcn at hn
  split at hn <;> split at hn <;> omega

theorem ciEqC_symm {a b : Char} (h : ciEqC a b = true) : ciEqC b a = true := by
  simp [ciEqC] at h ⊢
  omega

/-- Case-insensitive equality relates characters equally to any fixed
non-letter (code below 65, e.g. `.`, `/`). -/
theorem ciEqC_low_iff {a b : Char} (ch : Char) (h : ciEqC a b = true)
    (hch : ch.toNat < 65) : a = ch ↔ b = ch := by
  constructor
  · rintro rfl
    exact ciEqC_eq_of_low (ciEqC_symm h) hch
  · rintro rfl
    exact ciEqC_eq_of_low h hch

theorem ciEqC_congr {a b : Char} (h : ciEqC a b = true) (c : Char) :
    ciEqC a c = ciEqC b c := by
  have hn : lcn a.toNat = lcn b.toNat := by simpa [ciEqC] using h
  simp [ciEqC, hn]

theorem ciEqL_congr {x y : List Char} (h : ciEqL x y = true) :
    ∀ z, ciEqL x z = ciEqL y z := by
  induction x generalizing y with
  | nil =>
    cases y with
    | nil => intro z; rfl
    | cons b ys => simp [ciEqL] at h
  | cons a xs ih =>
    cases y with
    | nil => simp [ciEqL] at h
    | cons b ys =>
      have h' : ciEqC a b = true ∧ ciEqL xs ys = true := by simpa [ciEqL] using h
      intro z
      cases z with
      | nil => rfl
      | cons c zs =>
        show (ciEqC a c && ciEqL xs zs) = (ciEqC b c && ciEqL ys zs)
        rw [ciEqC_congr h'.1 c, ih h'.2 zs]

theorem ciEqL_refl (x : List Char) : ciEqL x x = true := by
  induction x with
  | nil => rfl
  | cons a xs ih =>
    show (ciEqC a a && ciEqL xs xs) = true
    simp [ciEqC, ih]

theorem ciEqL_append {a b c d : List Char} (h1 : ciEqL a b = true)
    (h2 : ciEqL c d = true) : ciEqL (a ++ c) (b ++ d) = true := by
  induction a generalizing b with
  | nil =>
    cases b with
    | nil => simpa using h2
    | cons y ys => simp [ciEqL] at h1
  | cons x xs ih =>
    cases b with
    | nil => simp [ciEqL] at h1
    | cons y ys =>
      have h' : ciEqC x y = true ∧ ciEqL xs ys = true := by simpa [ciEqL] using h1
      show (ciEqC x y && ciEqL (xs ++ c) (ys ++ d)) = true
      simp [h'.1, ih h'.2]

theorem ciEqL_reverse {a b : List Char} (h : ciEqL a b = true) :
    ciEqL a.reverse b.reverse = true := by
  induction a generalizing b with
  | nil =>
    cases b with
    | nil => rfl
    | cons y ys => simp [ciEqL] at h
  | cons x xs ih =>
    cases b with
    | nil => simp [ciEqL] at h
    | cons y ys =>
      have h' : ciEqC x y = true ∧ ciEqL xs ys = true := by simpa [ciEqL] using h
      simp only [List.reverse_cons]
      refine ciEqL_append (ih h'.2) ?_
      show (ciEqC x y && ciEqL [] []) = true
      simp [h'.1]
      rfl

theorem ciEqL_takeWhile_ne {a b : List Char} (ch : Char) (hch : ch.toNat < 65)
    (h : ciEqL a b = true) :
    ciEqL (a.takeWhile (fun c => decide (c ≠ ch)))
      (b.takeWhile (fun c => decide (c ≠ ch))) = true := by
  induction a generalizing b with
  | nil =>
    cases b with
    | nil => rfl
    | cons y ys => simp [ciEqL] at h
  | cons x xs ih =>
    cases b with
    | nil => simp [ciEqL] at h
    | cons y ys =>
      have h' : ciEqC x y = true ∧ ciEqL xs ys = true := by simpa [ciEqL] using h
      have hiff := ciEqC_low_iff ch h'.1 hch
      rw [List.takeWhile_cons, List.takeWhile_cons]
      by_cases hx : x = ch
      · have hy : y = ch := hiff.mp hx
        simp [hx, hy]
        rfl
      · have hy : y ≠ ch := fun hc => hx (hiff.mpr hc)
        rw [if_pos (by simp [hx]), if_pos (by simp [hy])]
        show (ciEqC x y && ciEqL (xs.takeWhile (fun c => decide (c ≠ ch)))
          (ys.takeWhile (fun c => decide (c ≠ ch)))) = true
        rw [h'.1, Bool.true_and]
        exact ih h'.2

theorem afterLastSlash_ci {a b : List Char} (h : ciEqL a b = true) :
    ciEqL (afterLastSlash a) (afterLastSlash b) = true := by
  unfold afterLastSlash
  exact ciEqL_reverse (ciEqL_takeWhile_ne '/' (by decide) (ciEqL_reverse h))

theorem afterLastDot_ci {a b : List Char} (h : ciEqL a b = true) :
    ciEqO (afterLastDot a) (afterLastDot b) = true := by
  induction a generalizing b with
  | nil =>
    cases b with
    | nil => rfl
    | cons y ys => simp [ciEqL] at h
  | cons x xs ih =>
    cases b with
    | nil => simp [ciEqL] at h
    | cons y ys =>
      have h' : ciEqC x y = true ∧ ciEqL xs ys = true := by simpa [ciEqL] using h
      have hrec := ih h'.2
      have hiff := ciEqC_low_iff '.' h'.1 (by decide)
      unfold afterLastDot
      cases h1 : afterLastDot xs with
      | some t1 =>
        cases h2 : afterLastDot ys with
        | some t2 => rw [h1, h2] at hrec; exact hrec
        | none => rw [h1, h2] at hrec; simp [ciEqO] at hrec
      | none =>
        cases h2 : afterLastDot ys with
        | some t2 => rw [h1, h2] at hrec; simp [ciEqO] at hrec
        | none =>
          by_cases hx : x = '.'
          · have hy : y = '.' := hiff.mp hx
            rw [if_pos hx, if_pos hy]
            exact h'.2
          · have hy : y ≠ '.' := fun hc => hx (hiff.mpr hc)
            rw [if_neg hx, if_neg hy]
            rfl

theorem splitAtFirstDotRev_ci {a b : List Char} (h : ciEqL a b = true) :
    ciEqPO (splitAtFirstDotRev a) (splitAtFirstDotRev b) = true := by
  induction a generalizing b with
  | nil =>
    cases b with
    | nil => rfl
    | cons y ys => simp [ciEqL] at h
  | cons x xs ih =>
    cases b with
    | nil => simp [ciEqL] at h
    | cons y ys =>
      have h' : ciEqC x y = true ∧ ciEqL xs ys = true := by simpa [ciEqL] using h
      have hiff := ciEqC_low_iff '.' h'.1 (by decide)
      unfold splitAtFirstDotRev
      by_cases hx : x = '.'
      · have hy : y = '.' := hiff.mp hx
        rw [if_pos hx, if_pos hy]
        show (ciEqL [x] [y] && ciEqL xs ys) = true
        subst hx; subst hy
        simp [h'.2]
        show (ciEqC '.' '.' && ciEqL [] []) = true
        decide
      · have hy : y ≠ '.' := fun hc => hx (hiff.mpr hc)
        rw [if_neg hx, if_neg hy]
        have hrec := ih h'.2
        cases h1 : splitAtFirstDotRev xs with
        | some p =>
          cases h2 : splitAtFirstDotRev ys with
          | some q =>
            obtain ⟨e1, r1⟩ := p
            obtain ⟨e2, r2⟩ := q
            rw [h1, h2] at hrec
            have hpq : ciEqL e1 e2 = true ∧ ciEqL r1 r2 = true := by
              simpa [ciEqPO] using hrec
            show (ciEqL (x :: e1) (y :: e2) && ciEqL r1 r2) = true
            have hh : ciEqL (x :: e1) (y :: e2) = true := by
              show (ciEqC x y && ciEqL e1 e2) = true
              simp [h'.1, hpq.1]
            simp [hh, hpq.2]
          | none => rw [h1, h2] at hrec; simp [ciEqPO] at hrec
        | none =>
          cases h2 : splitAtFirstDotRev ys with
          | some q => rw [h1, h2] at hrec; simp [ciEqPO] at hrec
          | none => rfl

theorem any_ne_ci {a b : List Char} (ch : Char) (hch : ch.toNat < 65)
    (h : ciEqL a b = true) :
    a.any (fun c => decide (c ≠ ch)) = b.any (fun c => decide (c ≠ ch)) := by
  induction a generalizing b with
  | nil =>
    cases b with
    | nil => rfl
    | cons y ys => simp [ciEqL] at h
  | cons x xs ih =>
    cases b with
    | nil => simp [ciEqL] at h
    | cons y ys =>
      have h' : ciEqC x y = true ∧ ciEqL xs ys = true := by simpa [ciEqL] using h
      have hiff := ciEqC_low_iff ch h'.1 hch
      rw [List.any_cons, List.any_cons, ih h'.2,
        decide_eq_decide.mpr (not_congr hiff)]

theorem splitext_ext_ci {x y : List Char} (h : ciEqL x y = true) :
    ciEqL (splitext x).2 (splitext y).2 = true := by
  unfold splitext
  dsimp only
  have hps := splitAtFirstDotRev_ci (ciEqL_reverse (afterLastSlash_ci h))
  cases h1 : splitAtFirstDotRev (afterLastSlash x).reverse with
  | some p =>
    cases h2 : splitAtFirstDotRev (afterLastSlash y).reverse with
    | some q =>
      obtain ⟨e1, r1⟩ := p
      obtain ⟨e2, r2⟩ := q
      rw [h1, h2] at hps
      have hpq : ciEqL e1 e2 = true ∧ ciEqL r1 r2 = true := by
        simpa [ciEqPO] using hps
      have hany := any_ne_ci '.' (by decide) hpq.2
      dsimp only
      by_cases ha : r1.any (fun c => decide (c ≠ '.')) = true
      · rw [if_pos ha, if_pos (hany ▸ ha)]
        exact ciEqL_reverse hpq.1
      · rw [if_neg ha, if_neg (fun hc => ha (hany ▸ hc))]
        rfl
    | none => rw [h1, h2] at hps; simp [ciEqPO] at hps
  | none =>
    cases h2 : splitAtFirstDotRev (afterLastSlash y).reverse with
    | some q => rw [h1, h2] at hps; simp [ciEqPO] at hps
    | none => rfl

theorem ciMem_congr {x y : List Char} (h : ciEqL x y = true)
    (L : List (List Char)) : ciMem x L = ciMem y L := by
  induction L with
  | nil => rfl
  | cons z zs ih =>
    show (ciEqL x z || ciMem x zs) = (ciEqL y z || ciMem y zs)
    rw [ciEqL_congr h z, ih]

theorem allowed_file_ci {x y : List Char} (h : ciEqL x y = true) :
    allowed_file x = allowed_file y := by
  unfold allowed_file
  have hd := afterLastDot_ci h
  cases h1 : afterLastDot x with
  | some e1 =>
    cases h2 : afterLastDot y with
    | some e2 =>
      rw [h1, h2] at hd
      exact ciMem_congr (by simpa [ciEqO] using hd) ALLOWED_EXTENSIONS
    | none => rw [h1, h2] at hd; simp [ciEqO] at hd
  | none =>
    cases h2 : afterLastDot y with
    | some e2 => rw [h1, h2] at hd; simp [ciEqO] at hd
    | none => rfl

theorem routeOf_ci {x y : List Char} (h : ciEqL x y = true) :
    routeOf x = routeOf y := by
  unfold routeOf
  have he := splitext_ext_ci h
  dsimp only
  rw [ciMem_congr he [".md".data, ".mkd".data], ciEqL_congr he ".txt".data]

/-- C10: acceptance and starting-stage routing are case-insensitive in
the filename: case-insensitively equal filenames (in particular a
filename and its lowercase form) are accepted identically by
`allowed_file` and routed identically by the extension dispatch of
`process_file`, for any workspace directory. -/
theorem c10_case_insensitive_extension (f g : List Char) (h : ciEqL f g = true) :
    allowed_file f = allowed_file g
    ∧ ∀ d : List Char, routeOf (pathJoin d f) = routeOf (pathJoin d g) := by
  refine ⟨allowed_file_ci h, fun d => ?_⟩
  apply routeOf_ci
  unfold pathJoin
  refine ciEqL_append (ciEqL_refl d) ?_
  show (ciEqC '/' '/' && ciEqL f g) = true
  simp [h]
  decide

/-- Witness for C10: `DOC.XML` is accepted and routed exactly like
`doc.xml` (and it is indeed accepted, taking the direct-normalization
route). -/
theorem c10_witness :
    (allowed_file "DOC.XML".data = allowed_file "doc.xml".data
      ∧ routeOf (pathJoin "/uploads/u1".data "DOC.XML".data) =
          routeOf (pathJoin "/uploads/u1".data "doc.xml".data))
    ∧ allowed_file "DOC.XML".data = true
    ∧ routeOf (pathJoin "/uploads/u1".data "DOC.XML".data) = Route.xmlDirect :=
  ⟨⟨(c10_case_insensitive_extension "DOC.XML".data "doc.xml".data (by decide)).1,
    (c10_case_insensitive_extension "DOC.XML".data "doc.xml".data (by decide)).2
      "/uploads/u1".data⟩,
    by decide, by decide⟩

end IetfAt
